import Mathlib

/-!
Verification of the `jx` helm CLI wrapper (`pkg/helm/helm_cli.go`) and its
external-command runner (`pkg/util/commands.go`).

Go strings are modelled as `List Char` (`GoStr`); Go runtime panics of the
parsers are modelled by `Option.none`; Go `error` results by `Except`/`Option`.
-/

set_option maxHeartbeats 1000000

namespace Jx

/-- A Go string, modelled as its list of characters. -/
abbrev GoStr := List Char

/-- Convert a Lean string literal into the `GoStr` model. -/
def gs (s : String) : GoStr := s.toList

/-- Go `unicode.IsSpace` restricted to the Latin-1 range, which is what
`strings.Fields` and `strings.TrimSpace` use to recognise whitespace:
space, tab, newline, vertical tab, form feed, carriage return, NEL, NBSP. -/
def isWs (c : Char) : Bool :=
  c.toNat = 32 || c.toNat = 9 || c.toNat = 10 || c.toNat = 11 ||
  c.toNat = 12 || c.toNat = 13 || c.toNat = 133 || c.toNat = 160

/-- Go `strings.Split(s, sep)` for a one-character separator. -/
def splitChar (sep : Char) (l : GoStr) : List GoStr := l.splitOn sep

/-- Go `strings.TrimSpace`: drop leading whitespace, then (via reversal)
trailing whitespace. -/
def trimSpace (l : GoStr) : GoStr :=
  ((l.dropWhile isWs).reverse.dropWhile isWs).reverse

/-- Go `strings.Fields`: the maximal runs of non-whitespace characters, i.e.
the non-empty chunks obtained by cutting at every whitespace character. -/
def fields (l : GoStr) : List GoStr :=
  (l.splitOnP isWs).filter (fun t => !t.isEmpty)

/-- The Go slice expression `xs[i:]`: defined when `i ≤ len(xs)`, and a
runtime panic (modelled as `none`) otherwise. -/
def goSliceFrom (xs : List α) (i : Nat) : Option (List α) :=
  if i ≤ xs.length then some (xs.drop i) else none

/-- A Go `map[string]string`, modelled as an association list in insertion
order; `mapInsert` overwrites an existing key in place, as Go map
assignment does. -/
abbrev GoMap := List (GoStr × GoStr)

/-- Go map assignment `m[k] = v`. -/
def mapInsert (m : GoMap) (k v : GoStr) : GoMap :=
  if m.any (fun p => p.1 == k) then
    m.map (fun p => if p.1 == k then (k, v) else p)
  else m ++ [(k, v)]

/-! ### Whitespace lemmas: `fields` is invariant under `trimSpace` -/

theorem splitOnP_all_ws {w : GoStr} (h : ∀ c ∈ w, isWs c = true) :
    w.splitOnP isWs = List.replicate (w.length + 1) [] := by
  induction w with
  | nil => simp [List.splitOnP_nil]
  | cons c cs ih =>
    rw [List.splitOnP_cons, if_pos (h c (by simp)),
      ih fun x hx => h x (by simp [hx])]
    simp [List.replicate_succ]

theorem modifyHead_append_of_ne_nil (f : α → α) (l₁ l₂ : List α)
    (h : l₁ ≠ []) : (l₁ ++ l₂).modifyHead f = l₁.modifyHead f ++ l₂ := by
  cases l₁ with
  | nil => exact absurd rfl h
  | cons a l => simp

theorem splitOnP_append_ws (l : GoStr) (w : GoStr)
    (hw : ∀ c ∈ w, isWs c = true) :
    (l ++ w).splitOnP isWs = l.splitOnP isWs ++ List.replicate w.length [] := by
  induction l with
  | nil =>
    rw [List.nil_append, splitOnP_all_ws hw, List.splitOnP_nil,
      List.replicate_succ]
    rfl
  | cons a l ih =>
    by_cases ha : isWs a = true
    · rw [List.cons_append, List.splitOnP_cons, if_pos ha, ih,
        List.splitOnP_cons, if_pos ha, List.cons_append]
    · rw [List.cons_append, List.splitOnP_cons, if_neg ha, ih,
        modifyHead_append_of_ne_nil _ _ _ (List.splitOnP_ne_nil _ _),
        List.splitOnP_cons, if_neg ha]

theorem filter_replicate_nil_eq_nil (n : Nat) :
    (List.replicate n ([] : GoStr)).filter (fun t => !t.isEmpty) = [] := by
  induction n with
  | zero => rfl
  | succ n ih => rw [List.replicate_succ, List.filter_cons_of_neg (by simp), ih]

theorem fields_append_ws (l w : GoStr) (hw : ∀ c ∈ w, isWs c = true) :
    fields (l ++ w) = fields l := by
  unfold fields
  rw [splitOnP_append_ws l w hw, List.filter_append,
    filter_replicate_nil_eq_nil, List.append_nil]

theorem fields_dropWhile_ws (l : GoStr) :
    fields (l.dropWhile isWs) = fields l := by
  induction l with
  | nil => rfl
  | cons c cs ih =>
    by_cases h : isWs c = true
    · rw [List.dropWhile_cons_of_pos h, ih]
      unfold fields
      rw [List.splitOnP_cons, if_pos h, List.filter_cons_of_neg (by simp)]
    · rw [List.dropWhile_cons_of_neg h]

theorem mem_reverse_takeWhile_ws {l : GoStr} :
    ∀ c ∈ (l.reverse.takeWhile isWs).reverse, isWs c = true := by
  intro c hc
  rw [List.mem_reverse] at hc
  exact List.mem_takeWhile_imp hc

theorem fields_trimSpace (l : GoStr) : fields (trimSpace l) = fields l := by
  unfold trimSpace
  set a := l.dropWhile isWs with ha
  have hsplit :
      a = (a.reverse.dropWhile isWs).reverse ++ (a.reverse.takeWhile isWs).reverse := by
    rw [← List.reverse_append, List.takeWhile_append_dropWhile, List.reverse_reverse]
  calc fields (a.reverse.dropWhile isWs).reverse
      = fields ((a.reverse.dropWhile isWs).reverse ++ (a.reverse.takeWhile isWs).reverse) :=
        (fields_append_ws _ _ mem_reverse_takeWhile_ws).symm
    _ = fields a := by rw [← hsplit]
    _ = fields l := by rw [ha, fields_dropWhile_ws]

/-! ### The helm CLI output parsers (`pkg/helm/helm_cli.go`) -/

/-- One iteration of the `ListRepos` parsing loop (helm_cli.go:113-121):
trim the line, whitespace-tokenize it, then map the first token to the
second token (two or more tokens), to `""` (exactly one token), or skip
the line (no tokens). -/
def listReposStep (m : GoMap) (line : GoStr) : GoMap :=
  let line := trimSpace line
  let fs := fields line
  if fs.length > 1 then mapInsert m (fs.getD 0 []) (fs.getD 1 [])
  else if fs.length > 0 then mapInsert m (fs.getD 0 []) []
  else m

/-- The parsing performed by `ListRepos` on the trimmed `repo list` output
(helm_cli.go:111-122): split on newlines, take `lines[2:]` (a runtime panic,
modelled as `none`, when there are fewer than two lines), and fold the
per-line step over the rest. -/
def listReposParse (output : GoStr) : Option GoMap :=
  (goSliceFrom (splitChar '\n' output) 2).map
    (fun rest => rest.foldl listReposStep [])

/-- One iteration of the `SearchChartVersions` parsing loop
(helm_cli.go:251-259): whitespace-tokenize the line and append the second
token when present and non-empty. -/
def searchChartVersionsStep (versions : List GoStr) (line : GoStr) : List GoStr :=
  let fs := fields line
  if fs.length > 1 then
    let v := fs.getD 1 []
    if v ≠ [] then versions ++ [v] else versions
  else versions

/-- The parsing performed by `SearchChartVersions` (helm_cli.go:249-260). -/
def searchChartVersionsParse (output : GoStr) : Option (List GoStr) :=
  (goSliceFrom (splitChar '\n' output) 2).map
    (fun rest => rest.foldl searchChartVersionsStep [])

/-- One iteration of the `StatusReleases` parsing loop (helm_cli.go:308-315):
split the line on tabs and, when there are more than 3 fields, map the
trimmed first field to the trimmed fourth field. -/
def statusReleasesStep (m : GoMap) (line : GoStr) : GoMap :=
  let fs := splitChar '\t' line
  if fs.length > 3 then
    mapInsert m (trimSpace (fs.getD 0 [])) (trimSpace (fs.getD 3 []))
  else m

/-- The parsing performed by `StatusReleases` on the `list` output
(helm_cli.go:306-316). -/
def statusReleasesParse (output : GoStr) : Option GoMap :=
  (goSliceFrom (splitChar '\n' output) 2).map
    (fun rest => rest.foldl statusReleasesStep [])

/-- The per-line mapping exactly as the specification words it for
`ListRepos`: whitespace-tokenize the line; the first token maps to the
second token when one is present and to the empty string otherwise. -/
def listReposSpecStep (m : GoMap) (line : GoStr) : GoMap :=
  match fields line with
  | [] => m
  | [name] => mapInsert m name []
  | name :: url :: _ => mapInsert m name url

/-- The per-line mapping exactly as the specification words it for
`StatusReleases`: split on tabs; only lines with more than 3 tab-delimited
fields map their trimmed first field to their trimmed fourth field. -/
def statusReleasesSpecStep (m : GoMap) (line : GoStr) : GoMap :=
  match splitChar '\t' line with
  | f1 :: _ :: _ :: f4 :: _ => mapInsert m (trimSpace f1) (trimSpace f4)
  | _ => m

theorem listReposStep_eq_spec (m : GoMap) (line : GoStr) :
    listReposStep m line = listReposSpecStep m line := by
  unfold listReposStep listReposSpecStep
  dsimp only
  rw [fields_trimSpace]
  rcases h : fields line with _ | ⟨a, _ | ⟨b, t⟩⟩ <;> simp [h, List.getD]

theorem statusReleasesStep_eq_spec (m : GoMap) (line : GoStr) :
    statusReleasesStep m line = statusReleasesSpecStep m line := by
  unfold statusReleasesStep statusReleasesSpecStep
  rcases h : splitChar '\t' line with _ | ⟨a, _ | ⟨b, _ | ⟨c, _ | ⟨d, t⟩⟩⟩⟩ <;>
    simp [h, List.getD]

/-- **C1**: for every successful `repo list` invocation, `ListRepos` discards
exactly the first two lines of the trimmed output, whitespace-tokenizes each
remaining line, and returns a map in which each line's first token maps to its
second token when one is present and to the empty string otherwise; in
particular, on input `"NAME\tURL\n---\nrepo1\thttp://a\nrepo2\n"` it yields
`{"repo1": "http://a", "repo2": ""}`. -/
theorem C1_listRepos_parse :
    (∀ (output : GoStr) (m : GoMap), listReposParse output = some m →
        m = ((splitChar '\n' output).drop 2).foldl listReposSpecStep []) ∧
    listReposParse (gs "NAME\tURL\n---\nrepo1\thttp://a\nrepo2\n") =
      some [(gs "repo1", gs "http://a"), (gs "repo2", gs "")] := by
  constructor
  · intro output m h
    unfold listReposParse goSliceFrom at h
    by_cases hl : 2 ≤ (splitChar '\n' output).length
    · rw [if_pos hl] at h
      simp only [Option.map_some', Option.some.injEq] at h
      rw [← h]
      exact List.foldl_ext _ _ _ fun a b _ => listReposStep_eq_spec a b
    · rw [if_neg hl] at h
      simp at h
  · decide

theorem C1_listRepos_parse_witness :
    [(gs "repo1", gs "http://a"), (gs "repo2", gs "")] =
      ((splitChar '\n' (gs "NAME\tURL\n---\nrepo1\thttp://a\nrepo2\n")).drop 2).foldl
        listReposSpecStep [] :=
  C1_listRepos_parse.1 (gs "NAME\tURL\n---\nrepo1\thttp://a\nrepo2\n")
    [(gs "repo1", gs "http://a"), (gs "repo2", gs "")] (by decide)

/-- **C2**: for every successful `list` invocation, `StatusReleases` skips the
first two lines, splits each remaining line on tab characters, and maps the
trimmed first field to the trimmed fourth field only for lines with more than
3 tab-delimited fields; every line with 3 or fewer tab fields contributes
nothing. In particular the row `"rel\tx\ty\tDEPLOYED"` maps to
`{"rel": "DEPLOYED"}`. -/
theorem C2_statusReleases_parse :
    (∀ (output : GoStr) (m : GoMap), statusReleasesParse output = some m →
        m = ((splitChar '\n' output).drop 2).foldl statusReleasesSpecStep []) ∧
    statusReleasesParse (gs "NAME\tREVISION\tUPDATED\tSTATUS\n----\nrel\tx\ty\tDEPLOYED") =
      some [(gs "rel", gs "DEPLOYED")] := by
  constructor
  · intro output m h
    unfold statusReleasesParse goSliceFrom at h
    by_cases hl : 2 ≤ (splitChar '\n' output).length
    · rw [if_pos hl] at h
      simp only [Option.map_some', Option.some.injEq] at h
      rw [← h]
      exact List.foldl_ext _ _ _ fun a b _ => statusReleasesStep_eq_spec a b
    · rw [if_neg hl] at h
      simp at h
  · decide

theorem C2_statusReleases_parse_witness :
    [(gs "rel", gs "DEPLOYED")] =
      ((splitChar '\n'
          (gs "NAME\tREVISION\tUPDATED\tSTATUS\n----\nrel\tx\ty\tDEPLOYED")).drop 2).foldl
        statusReleasesSpecStep [] :=
  C2_statusReleases_parse.1
    (gs "NAME\tREVISION\tUPDATED\tSTATUS\n----\nrel\tx\ty\tDEPLOYED")
    [(gs "rel", gs "DEPLOYED")] (by decide)

/-- **C5**: the line-skipping parsers index `lines[2:]` without a length
guard, so whenever the trimmed command output splits into fewer than two
newline-separated lines (for example, an empty successful output, which yields
a single-element slice), `ListRepos`, `SearchChartVersions` and
`StatusReleases` panic at runtime (modelled by `none`) instead of returning an
empty result or an error. -/
theorem C5_short_output_panics :
    (∀ output : GoStr, (splitChar '\n' output).length < 2 →
        listReposParse output = none ∧ searchChartVersionsParse output = none ∧
          statusReleasesParse output = none) ∧
    ((splitChar '\n' (gs "")).length = 1 ∧ listReposParse (gs "") = none ∧
      searchChartVersionsParse (gs "") = none ∧ statusReleasesParse (gs "") = none) := by
  constructor
  · intro output h
    have h2 : ¬ 2 ≤ (splitChar '\n' output).length := by omega
    refine ⟨?_, ?_, ?_⟩ <;>
      simp [listReposParse, searchChartVersionsParse, statusReleasesParse,
        goSliceFrom, h2]
  · exact ⟨by decide, by decide, by decide, by decide⟩

theorem C5_short_output_panics_witness :
    listReposParse (gs "") = none ∧ searchChartVersionsParse (gs "") = none ∧
      statusReleasesParse (gs "") = none :=
  C5_short_output_panics.1 (gs "") (by decide)

/-! ### `IsRepoMissing` (helm_cli.go:126-147) -/

instance {ε α : Type} [DecidableEq ε] [DecidableEq α] :
    DecidableEq (Except ε α) := fun x y =>
  match x, y with
  | .error a, .error b =>
    if h : a = b then isTrue (by rw [h])
    else isFalse (fun hc => h (Except.error.inj hc))
  | .error _, .ok _ => isFalse (fun hc => Except.noConfusion hc)
  | .ok _, .error _ => isFalse (fun hc => Except.noConfusion hc)
  | .ok a, .ok b =>
    if h : a = b then isTrue (by rw [h])
    else isFalse (fun hc => h (Except.ok.inj hc))

/-- Modelled from the spec: `IsRepoMissing` delegates URL parsing to Go's
`net/url.Parse`, which is not part of this repository. Per §4.3 it "parses
the candidate URL and every known repo URL" and compares hosts, and a
malformed URL "is a hard error". We model host extraction: in a string
containing `"://"`, the host is the segment between the first `"://"` and the
next `'/'`, `'?'` or `'#'`; a string without a scheme separator has an empty
host (a relative URL); parsing fails exactly on strings containing an ASCII
control character (as `net/url.Parse` rejects those). -/
def hostOf : GoStr → GoStr
  | [] => []
  | ':' :: '/' :: '/' :: rest =>
    rest.takeWhile (fun c => !(c = '/' || c = '?' || c = '#'))
  | _ :: rest => hostOf rest

/-- Modelled from the spec: `net/url.Parse` reduced to the host component;
see `hostOf`. -/
def parseURLHost (s : GoStr) : Except Unit GoStr :=
  if s.any (fun c => c.toNat < 32) then .error ()
  else .ok (hostOf s)

/-- The loop of `IsRepoMissing` over the repository URLs (helm_cli.go:135-145):
empty URL strings are skipped; a URL that fails to parse is a hard error; the
first URL whose host equals the searched host returns `false` (present). -/
def isRepoMissingLoop (parse : GoStr → Except Unit GoStr) (searchedHost : GoStr) :
    List GoStr → Except Unit Bool
  | [] => .ok true
  | repoURL :: rest =>
    if repoURL.length > 0 then
      match parse repoURL with
      | .error e => .error e
      | .ok host =>
        if host = searchedHost then .ok false
        else isRepoMissingLoop parse searchedHost rest
    else isRepoMissingLoop parse searchedHost rest

/-- `IsRepoMissing` after a successful `ListRepos` (helm_cli.go:126-147).
`repoURLs` is the list of URL values of the repository map, in Go's
(unspecified) map iteration order; `parse` is the URL parser (net/url.Parse,
reduced to the host component). -/
def isRepoMissing (parse : GoStr → Except Unit GoStr) (repoURLs : List GoStr)
    (url : GoStr) : Except Unit Bool :=
  match parse url with
  | .error e => .error e
  | .ok searchedHost => isRepoMissingLoop parse searchedHost repoURLs

theorem isRepoMissingLoop_cons_ok {parse : GoStr → Except Unit GoStr}
    {sh r h : GoStr} (rest : List GoStr)
    (hr : r.length > 0) (hp : parse r = .ok h) :
    isRepoMissingLoop parse sh (r :: rest) =
      if h = sh then .ok false else isRepoMissingLoop parse sh rest := by
  rw [isRepoMissingLoop, if_pos hr, hp]

theorem isRepoMissingLoop_cons_err {parse : GoStr → Except Unit GoStr}
    {sh r : GoStr} {e : Unit} (rest : List GoStr)
    (hr : r.length > 0) (hp : parse r = .error e) :
    isRepoMissingLoop parse sh (r :: rest) = .error e := by
  rw [isRepoMissingLoop, if_pos hr, hp]

theorem isRepoMissingLoop_cons_skip {parse : GoStr → Except Unit GoStr}
    {sh r : GoStr} (rest : List GoStr) (hr : ¬ r.length > 0) :
    isRepoMissingLoop parse sh (r :: rest) = isRepoMissingLoop parse sh rest := by
  rw [isRepoMissingLoop, if_neg hr]

theorem isRepoMissing_ok {parse : GoStr → Except Unit GoStr}
    {url sh : GoStr} (repoURLs : List GoStr) (hp : parse url = .ok sh) :
    isRepoMissing parse repoURLs url = isRepoMissingLoop parse sh repoURLs := by
  rw [isRepoMissing, hp]

/-- **C3 counterexample**: with the stored repository URL `""` (which parses
fine, with empty host) and the candidate `"x"` (a relative URL, also with
empty host), some existing repository URL's host equals the candidate's host,
yet `IsRepoMissing` reports the repository as missing: the loop skips
zero-length URL strings before parsing them, so the claimed equivalence
("returns false exactly when some existing repository URL's host equals the
candidate URL's host") fails. -/
theorem C3_isRepoMissing_counterexample :
    parseURLHost (gs "x") = .ok [] ∧
    parseURLHost [] = .ok [] ∧
    isRepoMissing parseURLHost [([] : GoStr)] (gs "x") = .ok true ∧
    isRepoMissing parseURLHost [([] : GoStr)] (gs "x") ≠ .ok false := by
  refine ⟨by decide, by decide, by decide, by decide⟩

/-- **C3 (amended)**: for every candidate URL and every set of listed
repositories whose non-empty URLs all parse, `IsRepoMissing` returns `false`
exactly when some existing repository with a non-empty URL string has a host
equal to the candidate URL's host (and returns `true` when none has); if the
candidate URL is malformed the result is a hard error, and if any stored
non-empty repository URL is malformed the result is never a "missing"
verdict (`true`). -/
theorem C3_isRepoMissing_spec :
    (∀ (parse : GoStr → Except Unit GoStr) (repoURLs : List GoStr)
        (url searchedHost : GoStr),
      parse url = .ok searchedHost →
      (∀ r ∈ repoURLs, r ≠ [] → ∃ h, parse r = .ok h) →
      ((isRepoMissing parse repoURLs url = .ok false ↔
          ∃ r ∈ repoURLs, r ≠ [] ∧ parse r = .ok searchedHost) ∧
        (¬ (∃ r ∈ repoURLs, r ≠ [] ∧ parse r = .ok searchedHost) →
          isRepoMissing parse repoURLs url = .ok true))) ∧
    (∀ (parse : GoStr → Except Unit GoStr) (repoURLs : List GoStr) (url : GoStr),
      parse url = .error () →
      isRepoMissing parse repoURLs url = .error ()) ∧
    (∀ (parse : GoStr → Except Unit GoStr) (repoURLs : List GoStr)
        (url : GoStr),
      (∃ r ∈ repoURLs, r ≠ [] ∧ parse r = .error ()) →
      isRepoMissing parse repoURLs url ≠ .ok true) := by
  refine ⟨?_, ?_, ?_⟩
  · intro parse repoURLs url searchedHost hurl hall
    rw [isRepoMissing_ok repoURLs hurl]
    induction repoURLs with
    | nil => simp [isRepoMissingLoop]
    | cons r rest ih =>
      have ihr := ih fun x hx hne => hall x (by simp [hx]) hne
      by_cases hr : r.length > 0
      · have hne : r ≠ [] := by
          intro hrnil; rw [hrnil] at hr; simp at hr
        obtain ⟨h, hparse⟩ := hall r (by simp) hne
        rw [isRepoMissingLoop_cons_ok rest hr hparse]
        by_cases hh : h = searchedHost
        · subst hh
          rw [if_pos rfl]
          exact ⟨⟨fun _ => ⟨r, by simp, hne, hparse⟩, fun _ => rfl⟩,
            fun hnone => absurd ⟨r, by simp, hne, hparse⟩ hnone⟩
        · rw [if_neg hh]
          constructor
          · rw [ihr.1]
            constructor
            · rintro ⟨x, hx, hxne, hxp⟩
              exact ⟨x, by simp [hx], hxne, hxp⟩
            · rintro ⟨x, hx, hxne, hxp⟩
              rcases List.mem_cons.mp hx with hx | hx
              · subst hx
                rw [hparse] at hxp
                exact absurd (Except.ok.inj hxp) hh
              · exact ⟨x, hx, hxne, hxp⟩
          · intro hnone
            refine ihr.2 ?_
            rintro ⟨x, hx, hxne, hxp⟩
            exact hnone ⟨x, by simp [hx], hxne, hxp⟩
      · have hrnil : r = [] := by
          cases r with
          | nil => rfl
          | cons c cs => simp at hr
        rw [isRepoMissingLoop_cons_skip rest hr]
        constructor
        · rw [ihr.1]
          constructor
          · rintro ⟨x, hx, hxne, hxp⟩
            exact ⟨x, by simp [hx], hxne, hxp⟩
          · rintro ⟨x, hx, hxne, hxp⟩
            rcases List.mem_cons.mp hx with hx | hx
            · subst hrnil; subst hx; exact absurd rfl hxne
            · exact ⟨x, hx, hxne, hxp⟩
        · intro hnone
          refine ihr.2 ?_
          rintro ⟨x, hx, hxne, hxp⟩
          exact hnone ⟨x, by simp [hx], hxne, hxp⟩
  · intro parse repoURLs url herr
    rw [isRepoMissing, herr]
  · intro parse repoURLs url hbad
    cases hurl : parse url with
    | error e => rw [isRepoMissing, hurl]; simp
    | ok searchedHost =>
      rw [isRepoMissing_ok repoURLs hurl]
      induction repoURLs with
      | nil =>
        obtain ⟨x, hx, _⟩ := hbad
        simp at hx
      | cons y rest ih =>
        obtain ⟨x, hx, hxne, hxp⟩ := hbad
        by_cases hy : y.length > 0
        · cases hyp : parse y with
          | error e =>
            rw [isRepoMissingLoop_cons_err rest hy hyp]
            simp
          | ok h =>
            rw [isRepoMissingLoop_cons_ok rest hy hyp]
            by_cases hh : h = searchedHost
            · rw [if_pos hh]; simp
            · rw [if_neg hh]
              refine ih ⟨x, ?_, hxne, hxp⟩
              rcases List.mem_cons.mp hx with hx | hx
              · subst hx; rw [hyp] at hxp; exact absurd hxp (by simp)
              · exact hx
        · have hynil : y = [] := by
            cases y with
            | nil => rfl
            | cons c cs => simp at hy
          rw [isRepoMissingLoop_cons_skip rest hy]
          refine ih ⟨x, ?_, hxne, hxp⟩
          rcases List.mem_cons.mp hx with hx | hx
          · subst hynil; subst hx; exact absurd rfl hxne
          · exact hx

/-- Witness for C3: the spec example — `IsRepoMissing("http://example.com/x")`
against repos `{"a": "http://example.com/y"}` returns `false`, and against
`{"a": "http://other.com"}` returns `true`. -/
theorem C3_isRepoMissing_spec_witness :
    isRepoMissing parseURLHost [gs "http://example.com/y"] (gs "http://example.com/x")
        = .ok false ∧
    isRepoMissing parseURLHost [gs "http://other.com"] (gs "http://example.com/x")
        = .ok true := by
  constructor
  · exact ((C3_isRepoMissing_spec.1 parseURLHost [gs "http://example.com/y"]
        (gs "http://example.com/x") (gs "example.com") (by decide)
        (by
          intro r hr hne
          rw [List.mem_singleton] at hr
          subst hr
          exact ⟨gs "example.com", by decide⟩)).1).mpr
      ⟨gs "http://example.com/y", by decide, by decide, by decide⟩
  · exact (C3_isRepoMissing_spec.1 parseURLHost [gs "http://other.com"]
        (gs "http://example.com/x") (gs "example.com") (by decide)
        (by
          intro r hr hne
          rw [List.mem_singleton] at hr
          subst hr
          exact ⟨gs "other.com", by decide⟩)).2
      (by
        rintro ⟨r, hr, hne, hp⟩
        rw [List.mem_singleton] at hr
        subst hr
        rw [show parseURLHost (gs "http://other.com") = .ok (gs "other.com") by decide] at hp
        exact (by decide : gs "other.com" ≠ gs "example.com") (Except.ok.inj hp))

/-! ### `FindChart` (helm_cli.go:264-293) -/

/-- Go `strings.HasSuffix`. -/
def goHasSuffix (s suffix : GoStr) : Bool := suffix.isSuffixOf s

/-- Go `filepath.Join(dir, "Chart.yaml")` for a clean, non-empty `dir`. -/
def chartPath (dir : GoStr) : GoStr := dir ++ gs "/Chart.yaml"

/-- The `for _, file := range files` loop of `FindChart`
(helm_cli.go:283-289) together with the shared fallthrough
`return chartFile, nil`: the first glob entry whose path does not end in
`/preview/Chart.yaml` is returned; when none qualifies (or the list is
empty) the original `chartFile` candidate is returned. -/
def findChartLoop (chartFile : GoStr) : List GoStr → GoStr
  | [] => chartFile
  | f :: fs =>
    if goHasSuffix f (gs "/preview/Chart.yaml") = false then f
    else findChartLoop chartFile fs

/-- `FindChart` (helm_cli.go:264-293) as a pure function of its filesystem
observations: `existsRes` is the result of `util.FileExists(<dir>/Chart.yaml)`
(`Except` error = existence check failed), `glob1` is the result of
`filepath.Glob("*/Chart.yaml")` and `glob2` of
`filepath.Glob("*/*/Chart.yaml")`. -/
def findChart (dir : GoStr) (existsRes : Except Unit Bool)
    (glob1 glob2 : Except Unit (List GoStr)) : Except Unit GoStr :=
  let chartFile := chartPath dir
  match existsRes with
  | .error e => .error e
  | .ok ex =>
    if !ex then
      match glob1 with
      | .error e => .error e
      | .ok files =>
        if files.length > 0 then .ok (files.getD 0 chartFile)
        else
          match glob2 with
          | .error e => .error e
          | .ok files2 => .ok (findChartLoop chartFile files2)
    else .ok chartFile

theorem findChartLoop_eq_filter_head (chartFile : GoStr) (files : List GoStr) :
    findChartLoop chartFile files =
      (files.filter
        (fun f => !goHasSuffix f (gs "/preview/Chart.yaml"))).headD chartFile := by
  induction files with
  | nil => rfl
  | cons f fs ih =>
    rw [findChartLoop]
    by_cases h : goHasSuffix f (gs "/preview/Chart.yaml") = false
    · rw [if_pos h, List.filter_cons_of_pos (by simp [h]), List.headD_cons]
    · rw [if_neg h, ih, List.filter_cons_of_neg (by simp; simpa using h)]

/-- **C4**: `FindChart` resolves in this order: it returns
`<workdir>/Chart.yaml` when that file exists; otherwise the first match of
the single-level glob; otherwise the first match of the two-level glob whose
path does not end in `/preview/Chart.yaml` (such entries are skipped
entirely, never returned); and when no glob produces a usable match it
returns the original unconfirmed `<workdir>/Chart.yaml` path rather than a
not-found error. -/
theorem C4_findChart_resolution :
    (∀ (dir : GoStr) (glob1 glob2 : Except Unit (List GoStr)),
      findChart dir (.ok true) glob1 glob2 = .ok (chartPath dir)) ∧
    (∀ (dir f : GoStr) (fs : List GoStr) (glob2 : Except Unit (List GoStr)),
      findChart dir (.ok false) (.ok (f :: fs)) glob2 = .ok f) ∧
    (∀ (dir : GoStr) (files2 : List GoStr),
      findChart dir (.ok false) (.ok []) (.ok files2) =
        .ok ((files2.filter
          (fun f => !goHasSuffix f (gs "/preview/Chart.yaml"))).headD
            (chartPath dir))) := by
  refine ⟨?_, ?_, ?_⟩
  · intro dir glob1 glob2
    rfl
  · intro dir f fs glob2
    simp [findChart, List.getD]
  · intro dir files2
    rw [findChart, findChartLoop_eq_filter_head]
    simp

/-! ### `UpgradeChart` (helm_cli.go:197-225) -/

/-- The argument vector built by `UpgradeChart` (helm_cli.go:197-224),
written as the same sequence of appends the Go code performs. Go's `*int`
and `*string` optionals become `Option`; `strconv.Itoa` becomes `toString`. -/
def upgradeChartArgs (chart releaseName ns : String) (version : Option String)
    (install : Bool) (timeout : Option Int) (force wait : Bool)
    (values valueFiles : List String) : List String :=
  let args : List String := []
  let args := args ++ ["upgrade"]
  let args := args ++ ["--namespace", ns]
  let args := if install then args ++ ["--install"] else args
  let args := if wait then args ++ ["--wait"] else args
  let args := if force then args ++ ["--force"] else args
  let args := match timeout with
    | some t => args ++ ["--timeout", toString t]
    | none => args
  let args := match version with
    | some v => args ++ ["--version", v]
    | none => args
  let args := values.foldl (fun a value => a ++ ["--set", value]) args
  let args := valueFiles.foldl (fun a valueFile => a ++ ["--values", valueFile]) args
  args ++ [releaseName, chart]

theorem foldl_append_pairs (flag : String) (xs : List String) :
    ∀ acc : List String,
      xs.foldl (fun a v => a ++ [flag, v]) acc =
        acc ++ (xs.map (fun v => [flag, v])).flatten := by
  induction xs with
  | nil => intro acc; simp
  | cons x xs ih =>
    intro acc
    rw [List.foldl_cons, ih, List.map_cons, List.flatten_cons, List.append_assoc]

/-- **C8**: `UpgradeChart` builds the argument vector in exactly this order:
`upgrade`, `--namespace <ns>`, then `--install` if install, `--wait` if wait,
`--force` if force, `--timeout <n>` if the timeout is present, `--version <v>`
if the version is present, then one `--set` pair per value and one `--values`
pair per value file in input order, and finally the positional `releaseName`
then `chart` at the end. -/
theorem C8_upgradeChart_args (chart releaseName ns : String)
    (version : Option String) (install : Bool) (timeout : Option Int)
    (force wait : Bool) (values valueFiles : List String) :
    upgradeChartArgs chart releaseName ns version install timeout force wait
        values valueFiles =
      ["upgrade", "--namespace", ns] ++
      (if install then ["--install"] else []) ++
      (if wait then ["--wait"] else []) ++
      (if force then ["--force"] else []) ++
      (match timeout with | some t => ["--timeout", toString t] | none => []) ++
      (match version with | some v => ["--version", v] | none => []) ++
      (values.map (fun v => ["--set", v])).flatten ++
      (valueFiles.map (fun f => ["--values", f])).flatten ++
      [releaseName, chart] := by
  cases install <;> cases wait <;> cases force <;>
    cases timeout <;> cases version <;>
      simp [upgradeChartArgs, foldl_append_pairs]

/-! ### The command runner (`pkg/util/commands.go`) -/

/-- The observable behaviour of the external process an invocation would
start: its combined stdout+stderr stream and whether launch and exit
succeeded (exit status zero). -/
structure ProcResult where
  output : GoStr
  exitOk : Bool
deriving DecidableEq

/-- The wrapped error produced by `run` (commands.go:142-143): it embeds the
program name, arguments, directory and captured output, plus the underlying
cause. -/
structure CmdError where
  name : String
  args : List String
  dir : String
  output : GoStr
  cause : GoStr
deriving DecidableEq

/-- `util.Command` (commands.go:17-27). `backOffMaxElapsed` models the
`MaxElapsedTime` field of the `ExponentialBackOff` policy installed by `Run`
(`none` = the nil pointer of a fresh struct); `Timeout` is a `time.Duration`
in nanoseconds. -/
structure Command where
  attempts : Nat
  Errors : List CmdError
  Dir : String
  Name : String
  Args : List String
  backOffMaxElapsed : Option Nat
  Timeout : Nat
  Verbose : Bool
  Quiet : Bool
deriving DecidableEq

/-- `DidError` (commands.go:47-52). -/
def Command.DidError (c : Command) : Bool :=
  if c.Errors.length > 0 then true else false

/-- `DidFail` (commands.go:55-60). -/
def Command.DidFail (c : Command) : Bool :=
  if c.Errors.length = c.attempts then true else false

/-- `IsVerbose` (commands.go:71-73). -/
def Command.IsVerbose (c : Command) : Bool := c.Verbose

/-- `IsQuiet` (commands.go:76-84). -/
def Command.IsQuiet (c : Command) : Bool :=
  if c.IsVerbose then false
  else if c.Quiet then true
  else false

/-- Model of Go `os/exec.(*Cmd).CombinedOutput`, which this repository calls
but does not define: when `cmd.Stdout` is already non-nil it returns the
error `"exec: Stdout already set"` without starting the process (and
similarly for `Stderr`); otherwise it runs the process and returns the
combined output, with an error exactly when the launch fails or the exit
status is non-zero. -/
def combinedOutput (stdoutSet : Bool) (res : ProcResult) : GoStr × Option GoStr :=
  if stdoutSet then ([], some (gs "exec: Stdout already set"))
  else (res.output, if res.exitOk then none else some (gs "exit error"))

/-- The private `run` method (commands.go:129-149): in quiet mode it presets
`e.Stdout` and `e.Stderr` to `ioutil.Discard` before calling
`CombinedOutput` (so the `stdoutSet` argument below is exactly `IsQuiet`),
trims the captured text, and wraps any error with name, args, dir and the
captured output. The `log.Infoln` side effect of verbose mode and the
process-wide PATH mutation are outside the model. -/
def Command.runOnce (c : Command) (res : ProcResult) : GoStr × Option CmdError :=
  let p := combinedOutput c.IsQuiet res
  let text := trimSpace p.1
  match p.2 with
  | some e => (text, some ⟨c.Name, c.Args, c.Dir, text, e⟩)
  | none => (text, none)

/-- `RunWithoutRetry` (commands.go:116-127): one attempt; increments the
attempt counter and appends the error, if any, to the error list. Returns
the updated command together with the trimmed output and the error. -/
def Command.RunWithoutRetry (c : Command) (res : ProcResult) :
    Command × GoStr × Option CmdError :=
  let r := c.runOnce res
  let c := { c with attempts := c.attempts + 1 }
  match r.2 with
  | some err => ({ c with Errors := c.Errors ++ [err] }, r.1, some err)
  | none => (c, r.1, none)

/-- A sequence of `RunWithoutRetry` invocations, keeping the mutated
command state. -/
def Command.runSeq (c : Command) (results : List ProcResult) : Command :=
  results.foldl (fun c r => (c.RunWithoutRetry r).1) c

/-- `3 * time.Minute` in nanoseconds (commands.go:104). -/
def threeMinutes : Nat := 3 * 60 * 1000000000

/-- The command state after a failed attempt inside the retry loop of `Run`
(commands.go:94-97): one more attempt, the error appended. -/
def Command.afterFail (c : Command) (err : CmdError) : Command :=
  { c with attempts := c.attempts + 1, Errors := c.Errors ++ [err] }

/-- The retry loop of `Run` (commands.go:92-108). Modelled from the spec:
the `backoff.Retry` call of the external backoff library re-invokes the
operation "until it succeeds or the elapsed time exceeds the timeout" and
"on exhaustion, returns the last error"; we abstract its timing by the
non-empty list `res :: rest` of process behaviours, one per attempt the
backoff budget admits. Each attempt performs the bookkeeping of the closure
`f` (commands.go:92-100): increment the attempt counter and, on failure,
append the error; a successful attempt stops the loop with its output. -/
def Command.runLoop (c : Command) (res : ProcResult) (rest : List ProcResult) :
    Command × Except CmdError GoStr :=
  match (c.runOnce res).2, rest with
  | none, _ => ({ c with attempts := c.attempts + 1 }, .ok ((c.runOnce res).1))
  | some err, [] => (c.afterFail err, .error err)
  | some err, res2 :: rest2 => (c.afterFail err).runLoop res2 rest2

/-- `Run` (commands.go:87-113): installs a fresh exponential backoff policy,
defaults the timeout to 3 minutes when unset (zero), sets the policy's
`MaxElapsedTime` to the timeout, and runs the retry loop. -/
def Command.Run (c : Command) (res : ProcResult) (rest : List ProcResult) :
    Command × Except CmdError GoStr :=
  let t := if c.Timeout = 0 then threeMinutes else c.Timeout
  let c := { c with Timeout := t, backOffMaxElapsed := some t }
  c.runLoop res rest

/-- The `util.Command` value constructed by `NewHelmCLI` (helm_cli.go:32-36):
only `Args`, `Name` and `Dir` are set; every other field has its Go zero
value. -/
def freshCommand (name : String) (args : List String) (dir : String) : Command :=
  { attempts := 0, Errors := [], Dir := dir, Name := name, Args := args,
    backOffMaxElapsed := none, Timeout := 0, Verbose := false, Quiet := false }

theorem countP_ext {p q : α → Bool} (h : ∀ a, p a = q a) :
    ∀ l : List α, l.countP p = l.countP q := by
  intro l
  induction l with
  | nil => rfl
  | cons a l ih => simp [List.countP_cons, h a, ih]

theorem countP_eq_length_of_all {p : α → Bool} :
    ∀ {l : List α}, (∀ a ∈ l, p a = true) → l.countP p = l.length := by
  intro l
  induction l with
  | nil => intro _; rfl
  | cons a l ih =>
    intro h
    simp [List.countP_cons, h a (by simp), ih fun x hx => h x (by simp [hx])]

theorem countP_lt_length_of_exists_neg {p : α → Bool} :
    ∀ {l : List α}, (∃ a ∈ l, p a = false) → l.countP p < l.length := by
  intro l
  induction l with
  | nil => rintro ⟨a, ha, _⟩; simp at ha
  | cons a l ih =>
    rintro ⟨x, hx, hxp⟩
    rcases List.mem_cons.mp hx with hx | hx
    · subst hx
      have hle := List.countP_le_length (p := p) (l := l)
      simp [List.countP_cons, hxp]
      omega
    · have := ih ⟨x, hx, hxp⟩
      simp [List.countP_cons]
      split <;> omega

theorem runSeq_stats :
    ∀ (results : List ProcResult) (c : Command),
      (c.runSeq results).attempts = c.attempts + results.length ∧
      (c.runSeq results).Errors.length =
        c.Errors.length + results.countP (fun r => ((c.runOnce r).2).isSome) := by
  intro results
  induction results with
  | nil => intro c; simp [Command.runSeq]
  | cons r rs ih =>
    intro c
    have hstep : Command.runSeq c (r :: rs) =
        Command.runSeq ((c.RunWithoutRetry r).1) rs := by
      simp [Command.runSeq]
    rw [hstep]
    cases h : (c.runOnce r).2 with
    | none =>
      have hc : (c.RunWithoutRetry r).1 = { c with attempts := c.attempts + 1 } := by
        simp [Command.RunWithoutRetry, h]
      rw [hc]
      obtain ⟨h1, h2⟩ := ih { c with attempts := c.attempts + 1 }
      refine ⟨by rw [h1]; simp; omega, ?_⟩
      rw [h2]
      have hcount :
          rs.countP (fun x => ((({ c with attempts := c.attempts + 1 } : Command).runOnce x).2).isSome) =
            rs.countP (fun x => ((c.runOnce x).2).isSome) :=
        countP_ext (fun a => rfl) rs
      rw [hcount]
      simp [List.countP_cons, h]
    | some err =>
      have hc : (c.RunWithoutRetry r).1 =
          { c with attempts := c.attempts + 1, Errors := c.Errors ++ [err] } := by
        simp [Command.RunWithoutRetry, h]
      rw [hc]
      obtain ⟨h1, h2⟩ := ih { c with attempts := c.attempts + 1, Errors := c.Errors ++ [err] }
      refine ⟨by rw [h1]; simp; omega, ?_⟩
      rw [h2]
      have hcount :
          rs.countP (fun x =>
              ((({ c with attempts := c.attempts + 1, Errors := c.Errors ++ [err] } : Command).runOnce x).2).isSome) =
            rs.countP (fun x => ((c.runOnce x).2).isSome) :=
        countP_ext (fun a => rfl) rs
      rw [hcount]
      simp [List.countP_cons, h]
      omega

/-- **C6**: for every `Command`, `DidError` holds exactly when the error list
is non-empty, and `DidFail` holds exactly when the error count equals the
attempt count; consequently, after any (non-empty) sequence of runs that fail
on every attempt both `DidFail` and `DidError` hold, and after any sequence
containing at least one successful attempt `DidFail` does not hold (the
attempt counter strictly exceeds the error count). -/
theorem C6_didFail_didError :
    (∀ c : Command, c.DidError = true ↔ c.Errors ≠ []) ∧
    (∀ c : Command, c.DidFail = true ↔ c.Errors.length = c.attempts) ∧
    (∀ (c : Command) (results : List ProcResult),
      c.attempts = 0 → c.Errors = [] → results ≠ [] →
      (∀ r ∈ results, ((c.runOnce r).2).isSome = true) →
      (c.runSeq results).DidFail = true ∧ (c.runSeq results).DidError = true) ∧
    (∀ (c : Command) (results : List ProcResult),
      c.attempts = 0 → c.Errors = [] →
      (∃ r ∈ results, (c.runOnce r).2 = none) →
      (c.runSeq results).DidFail = false ∧
        (c.runSeq results).Errors.length < (c.runSeq results).attempts) := by
  refine ⟨?_, ?_, ?_, ?_⟩
  · intro c
    unfold Command.DidError
    split <;> rename_i h
    · simp
      intro hnil
      rw [hnil] at h
      simp at h
    · simp at h ⊢
      exact h
  · intro c
    unfold Command.DidFail
    split <;> rename_i h <;> simp [h]
  · intro c results h0 hnil hne hall
    obtain ⟨h1, h2⟩ := runSeq_stats results c
    rw [h0, hnil] at *
    have hcount : results.countP (fun r => ((c.runOnce r).2).isSome) = results.length :=
      countP_eq_length_of_all hall
    constructor
    · unfold Command.DidFail
      rw [if_pos (by rw [h1, h2, hcount]; simp)]
    · unfold Command.DidError
      rw [if_pos (by
        rw [h2, hcount]
        simp
        exact List.length_pos.mpr hne)]
  · intro c results h0 hnil hex
    obtain ⟨h1, h2⟩ := runSeq_stats results c
    rw [h0, hnil] at *
    have hcount : results.countP (fun r => ((c.runOnce r).2).isSome) < results.length := by
      refine countP_lt_length_of_exists_neg ?_
      obtain ⟨r, hr, hrn⟩ := hex
      exact ⟨r, hr, by rw [hrn]; rfl⟩
    constructor
    · unfold Command.DidFail
      rw [if_neg (by rw [h1, h2]; simp only [List.length_nil]; omega)]
    · rw [h1, h2]; simp only [List.length_nil]; omega

theorem C6_didFail_didError_witness :
    ((freshCommand "helm" ["version"] "").runSeq [⟨[], false⟩]).DidFail = true ∧
    ((freshCommand "helm" ["version"] "").runSeq [⟨[], false⟩]).DidError = true :=
  C6_didFail_didError.2.2.1 (freshCommand "helm" ["version"] "") [⟨[], false⟩]
    rfl rfl (by decide) (by decide)

/-- **C10**: on a freshly constructed `Command` that has never been run
(zero attempts, empty error list), `DidFail` returns `true` while `DidError`
returns `false`, because the zero error count equals the zero attempt count:
"has failed" and "has errored" disagree before any attempt is made. -/
theorem C10_fresh_didFail_not_didError (name dir : String) (args : List String) :
    (freshCommand name args dir).attempts = 0 ∧
    (freshCommand name args dir).Errors = [] ∧
    (freshCommand name args dir).DidFail = true ∧
    (freshCommand name args dir).DidError = false :=
  ⟨rfl, rfl, rfl, rfl⟩

/-- The command state after `Run` installs the backoff policy
(commands.go:102-107): the timeout defaulted and `MaxElapsedTime` set to it.
Definitionally equal to the state mutation performed by `Run`. -/
def Command.withPolicy (c : Command) (t : Nat) : Command :=
  { c with Timeout := t, backOffMaxElapsed := some t }

theorem runLoop_succ_eq {c : Command} {res : ProcResult}
    (rest : List ProcResult) (h : (c.runOnce res).2 = none) :
    c.runLoop res rest =
      ({ c with attempts := c.attempts + 1 }, .ok ((c.runOnce res).1)) :=
  Command.runLoop.eq_1 c res rest h

theorem runLoop_fail_nil {c : Command} {res : ProcResult} {err : CmdError}
    (h : (c.runOnce res).2 = some err) :
    c.runLoop res [] = (c.afterFail err, .error err) :=
  Command.runLoop.eq_2 c res err h

theorem runLoop_fail_cons {c : Command} {res : ProcResult} {err : CmdError}
    (r2 : ProcResult) (rs2 : List ProcResult)
    (h : (c.runOnce res).2 = some err) :
    c.runLoop res (r2 :: rs2) = (c.afterFail err).runLoop r2 rs2 :=
  Command.runLoop.eq_3 c res err r2 rs2 h

theorem runLoop_policy :
    ∀ (rest : List ProcResult) (c : Command) (res : ProcResult),
      ((c.runLoop res rest).1).backOffMaxElapsed = c.backOffMaxElapsed ∧
        ((c.runLoop res rest).1).Timeout = c.Timeout := by
  intro rest
  induction rest with
  | nil =>
    intro c res
    cases h : (c.runOnce res).2 with
    | none => rw [runLoop_succ_eq [] h]; exact ⟨rfl, rfl⟩
    | some err => rw [runLoop_fail_nil h]; exact ⟨rfl, rfl⟩
  | cons r2 rs2 ih =>
    intro c res
    cases h : (c.runOnce res).2 with
    | none => rw [runLoop_succ_eq (r2 :: rs2) h]; exact ⟨rfl, rfl⟩
    | some err =>
      rw [runLoop_fail_cons r2 rs2 h]
      exact ih (c.afterFail err) r2

theorem runLoop_success :
    ∀ (pre : List ProcResult) (c : Command) (res r : ProcResult)
      (rs post : List ProcResult),
      (∀ p ∈ pre, ((c.runOnce p).2).isSome = true) →
      (c.runOnce res).2 = none →
      r :: rs = pre ++ res :: post →
      (c.runLoop r rs).2 = .ok ((c.runOnce res).1) := by
  intro pre
  induction pre with
  | nil =>
    intro c res r rs post hpre hres heq
    rw [List.nil_append] at heq
    injection heq with h1 h2
    subst h1
    subst h2
    rw [runLoop_succ_eq _ hres]
  | cons p pre' ih =>
    intro c res r rs post hpre hres heq
    rw [List.cons_append] at heq
    injection heq with h1 h2
    subst h1
    cases herr : (c.runOnce r).2 with
    | none =>
      have := hpre r (by simp)
      rw [herr] at this
      simp at this
    | some err =>
      cases hrs : pre' ++ res :: post with
      | nil => exact absurd hrs (by simp)
      | cons r2 rs2 =>
        rw [h2, hrs, runLoop_fail_cons r2 rs2 herr]
        exact ih (c.afterFail err) res r2 rs2 post
          (fun q hq => hpre q (by simp [hq])) hres hrs.symm

theorem runLoop_all_fail :
    ∀ (rs : List ProcResult) (c : Command) (r : ProcResult),
      (∀ p ∈ r :: rs, ((c.runOnce p).2).isSome = true) →
      ∃ e, (c.runOnce ((r :: rs).getLast (by simp))).2 = some e ∧
        (c.runLoop r rs).2 = .error e := by
  intro rs
  induction rs with
  | nil =>
    intro c r hall
    cases herr : (c.runOnce r).2 with
    | none =>
      have := hall r (by simp)
      rw [herr] at this
      simp at this
    | some err =>
      exact ⟨err, by simpa [List.getLast] using herr, by rw [runLoop_fail_nil herr]⟩
  | cons r2 rs2 ih =>
    intro c r hall
    cases herr : (c.runOnce r).2 with
    | none =>
      have := hall r (by simp)
      rw [herr] at this
      simp at this
    | some err =>
      obtain ⟨e, he1, he2⟩ :=
        ih (c.afterFail err) r2 (fun p hp => hall p (by simp [hp]))
      refine ⟨e, ?_, ?_⟩
      · rw [List.getLast_cons (by simp)]
        exact he1
      · rw [runLoop_fail_cons r2 rs2 herr]
        exact he2

/-- **C7**: `Run` re-invokes the same invocation under an exponential-backoff
loop, using a max elapsed time equal to the configured timeout and defaulting
the timeout to 3 minutes when it is unset (zero); when some attempt succeeds,
`Run` returns that attempt's captured output with no error, and when the
backoff budget is exhausted without a success, `Run` returns the last
attempt's error. -/
theorem C7_run_retry :
    (∀ (c : Command) (res : ProcResult) (rest : List ProcResult),
      ((c.Run res rest).1).backOffMaxElapsed =
          some (if c.Timeout = 0 then threeMinutes else c.Timeout) ∧
        ((c.Run res rest).1).Timeout =
          (if c.Timeout = 0 then threeMinutes else c.Timeout)) ∧
    (∀ (pre : List ProcResult) (c : Command) (res r : ProcResult)
        (rs post : List ProcResult),
      (∀ p ∈ pre, ((c.runOnce p).2).isSome = true) →
      (c.runOnce res).2 = none →
      r :: rs = pre ++ res :: post →
      (c.Run r rs).2 = .ok ((c.runOnce res).1)) ∧
    (∀ (c : Command) (r : ProcResult) (rs : List ProcResult),
      (∀ p ∈ r :: rs, ((c.runOnce p).2).isSome = true) →
      ∃ e, (c.runOnce ((r :: rs).getLast (by simp))).2 = some e ∧
        (c.Run r rs).2 = .error e) := by
  refine ⟨?_, ?_, ?_⟩
  · intro c res rest
    exact runLoop_policy rest
      (c.withPolicy (if c.Timeout = 0 then threeMinutes else c.Timeout)) res
  · intro pre c res r rs post hpre hres heq
    exact runLoop_success pre
      (c.withPolicy (if c.Timeout = 0 then threeMinutes else c.Timeout))
      res r rs post hpre hres heq
  · intro c r rs hall
    exact runLoop_all_fail rs
      (c.withPolicy (if c.Timeout = 0 then threeMinutes else c.Timeout)) r hall

theorem C7_run_retry_witness :
    ((freshCommand "helm" ["version"] "").Run ⟨gs " hi ", true⟩ []).2 =
      .ok (((freshCommand "helm" ["version"] "").runOnce ⟨gs " hi ", true⟩).1) :=
  C7_run_retry.2.1 [] (freshCommand "helm" ["version"] "")
    ⟨gs " hi ", true⟩ ⟨gs " hi ", true⟩ [] []
    (by simp) (by decide) rfl



/-- **C9**: the claim says that in quiet mode the captured combined output is
discarded and the run otherwise behaves as a normal single execution. The
code instead presets `e.Stdout` and `e.Stderr` to `ioutil.Discard`
(commands.go:134-137) and then calls `e.CombinedOutput()`, which returns the
error `"exec: Stdout already set"` whenever `Stdout` is non-nil: every quiet
invocation therefore fails without the process even being started,
whatever the process would have done. -/
theorem C9_quiet_run_always_errors (c : Command) (res : ProcResult)
    (hq : c.IsQuiet = true) :
    ((c.runOnce res).2).isSome = true ∧ (c.runOnce res).1 = [] ∧
    (c.runOnce res).2 =
      some ⟨c.Name, c.Args, c.Dir, [], gs "exec: Stdout already set"⟩ := by
  unfold Command.runOnce combinedOutput
  rw [hq]
  simp [trimSpace]

theorem C9_quiet_run_always_errors_witness :
    ((({ freshCommand "helm" ["version"] "" with Quiet := true } : Command).runOnce
        ⟨gs "hello", true⟩).2).isSome = true :=
  (C9_quiet_run_always_errors
    ({ freshCommand "helm" ["version"] "" with Quiet := true })
    ⟨gs "hello", true⟩ (by decide)).1

end Jx
